import Mathlib

/-!
Verification of the mail-merge core of `emailer.py`.

The embedding models Python dicts as insertion-ordered association lists
(Python 3.7+ dicts preserve insertion order, which the grouping logic
relies on).  `csv.DictReader` output is modelled at its interface: a
table is an optional header (`reader.fieldnames`, `none` for an empty
file) together with the list of row dictionaries it yields; theorems
relate rows to the header by hypothesis (each row dictionary's key list
equals the header), which is what `DictReader` produces for a
duplicate-free header and full rows.

External collaborators (jinja2 rendering, pycmarkgfm conversion,
BeautifulSoup parsing, smtplib transmission) are parameters of the
embedded functions; the logic of `emailer.py` itself (grouping,
consolidation, subject-comment search/extraction, text derivation,
batch loop) is translated directly.
-/

namespace Emailer

/-- A row dictionary as yielded by `csv.DictReader`: insertion-ordered
association list from column name to cell value. -/
abbrev Row := List (String × String)

/-- A consolidated mapping: column name to the ordered list of that
column's values across the group's member rows. -/
abbrev Mapping := List (String × List String)

/-- Python dict lookup `d[k]` (as an option): first entry with the key.
Dictionaries built below always have distinct keys. -/
def dget? {α : Type} : List (String × α) → String → Option α
  | [], _ => none
  | (k, v) :: rest, key => if k = key then some v else dget? rest key

/-- `d.setdefault(key, []).append(x)`: append `x` to the list stored at
`key`, creating the entry (at the end, dict insertion order) if absent. -/
def dappend {α : Type} : List (String × List α) → String → α → List (String × List α)
  | [], key, x => [(key, [x])]
  | (k, vs) :: rest, key, x =>
      if k = key then (k, vs ++ [x]) :: rest else (k, vs) :: dappend rest key x

/-- Python `del d[key]`.  In `get_data` the deleted key is always
present (every member row was grouped through a successful lookup of
that key), so the total filter form agrees with Python's `del`. -/
def ddel {α : Type} (d : List (String × α)) (key : String) : List (String × α) :=
  d.filter (fun p => p.1 != key)

/-- Distinct values of a list in first-seen order (the iteration order
of a Python dict keyed by those values). -/
def firstSeen : List String → List String
  | [] => []
  | x :: xs => x :: firstSeen (xs.filter (fun y => y != x))
termination_by l => l.length
decreasing_by
  simpa using Nat.lt_succ_of_le (List.length_filter_le _ _)

/-- The column `k` of a list of rows: the values, in row order, of the
rows that carry the key. -/
def colOf (grp : List Row) (k : String) : List String :=
  grp.filterMap (fun r => dget? r k)

/-- The error surfaced when a processed row lacks the grouping column
(Python `KeyError`; the spec's `SchemaError`). -/
inductive SchemaError where
  | missingColumn
deriving DecidableEq, Repr

/-- `groupby = "Group"; if reader.fieldnames and groupby not in
reader.fieldnames: groupby = "EmailAddress"` (emailer.py lines 29-31;
`reader.fieldnames` is falsy when `None` or empty). -/
def groupbyOf (fieldnames : Option (List String)) : String :=
  match fieldnames with
  | none => "Group"
  | some fs => if fs ≠ [] ∧ "Group" ∉ fs then "EmailAddress" else "Group"

/-- The grouping loop (emailer.py lines 32-36): for each row, look up
the grouping column (`KeyError` if absent) and append the row to its
group, groups kept in first-insertion order. -/
def buildGroupsAux (gb : String) : List Row → List (String × List Row) →
    Except SchemaError (List (String × List Row))
  | [], acc => .ok acc
  | r :: rs, acc =>
      match dget? r gb with
      | none => .error .missingColumn
      | some key => buildGroupsAux gb rs (dappend acc key r)

/-- The consolidation loop for one group (emailer.py lines 38-42):
fold the member rows, appending each cell to its column's list. -/
def consolidateGroup (grp : List Row) : Mapping :=
  grp.foldl (fun m r => r.foldl (fun m2 kv => dappend m2 kv.1 kv.2) m) []

/-- ASCII lower-casing of a string, modelling `str.casefold` on the
column and directive names compared here (all ASCII). -/
def lowerStr (s : String) : String := ⟨s.toList.map Char.toLower⟩

/-- `get_data` (emailer.py lines 16-46): choose the grouping column,
group the rows, consolidate each group, and drop the `Group` entry when
grouping was by the literal `Group` column (case-insensitive compare on
the column name, line 43). -/
def get_data (fieldnames : Option (List String)) (rows : List Row) :
    Except SchemaError (List Mapping) :=
  let gb := groupbyOf fieldnames
  (buildGroupsAux gb rows []).map (fun groups =>
    groups.map (fun g =>
      let members := consolidateGroup g.2
      if lowerStr gb = "group" then ddel members gb else members))

/-- A node of the parsed HTML document (the BeautifulSoup tree):
elements with children, text nodes, comment nodes. -/
inductive Node where
  | elem (tag : String) (children : List Node)
  | text (s : String)
  | comment (s : String)

/-- A string node of the document (a `NavigableString`): ordinary text
or a comment.  `soup.find_all(string=True)` yields both kinds. -/
inductive SNode where
  | text (s : String)
  | comment (s : String)
deriving DecidableEq, Repr

/-- `str(navigable_string)`: the node's text (a comment's inner text,
without the markers). -/
def snodeStr : SNode → String
  | .text s => s
  | .comment s => s

/-- Characters stripped by `str.strip()` (the ASCII whitespace the
directives here use). -/
def isWS (c : Char) : Bool :=
  c = ' ' || c = '\t' || c = '\n' || c = '\r'

/-- `str.strip()` on the underlying character list. -/
def trimChars (l : List Char) : List Char :=
  ((l.dropWhile isWS).reverse.dropWhile isWS).reverse

/-- Does `l` begin with `pat`? -/
def beginsWith : List Char → List Char → Bool
  | _, [] => true
  | [], _ :: _ => false
  | c :: cs, p :: ps => c = p && beginsWith cs ps

/-- The comment filter of emailer.py lines 90-93:
`x.strip().casefold().startswith("subject")` (`casefold` is ASCII
lower-casing on the letters compared here). -/
def isSubjectComment (s : String) : Bool :=
  beginsWith ((trimChars s.toList).map Char.toLower) "subject".toList

/-- All string nodes of a forest in document (pre-order) order:
the strings `soup.find_all(string=True)` returns. -/
def nodesStrings : List Node → List SNode
  | [] => []
  | .elem _ cs :: ns => nodesStrings cs ++ nodesStrings ns
  | .text s :: ns => .text s :: nodesStrings ns
  | .comment s :: ns => .comment s :: nodesStrings ns

/-- `soup.find(string=lambda x: isinstance(x, Comment) and ...)`:
the first comment in document order whose text passes the filter. -/
def findSCs : List Node → Option String
  | [] => none
  | .elem _ cs :: ns =>
      match findSCs cs with
      | some s => some s
      | none => findSCs ns
  | .text _ :: ns => findSCs ns
  | .comment s :: ns => if isSubjectComment s then some s else findSCs ns

/-- `subject_comment.extract()`: remove the first matching comment node
from the forest. -/
def extractSCs : List Node → List Node
  | [] => []
  | .elem t cs :: ns =>
      if (findSCs cs).isSome then .elem t (extractSCs cs) :: ns
      else .elem t cs :: extractSCs ns
  | .text s :: ns => .text s :: extractSCs ns
  | .comment s :: ns =>
      if isSubjectComment s then ns else .comment s :: extractSCs ns

/-- Serialization of the document back to HTML markup.  Modelled from
the spec: the source never re-serializes the parsed document, so this
definition follows the spec words "the (possibly comment-stripped)
document serialized back to HTML" and is compared against what the
source actually puts in the HTML part. -/
def serializeNodes : List Node → String
  | [] => ""
  | .elem t cs :: ns =>
      "<" ++ t ++ ">" ++ serializeNodes cs ++ "</" ++ t ++ ">" ++ serializeNodes ns
  | .text s :: ns => s ++ serializeNodes ns
  | .comment s :: ns => "<!--" ++ s ++ "-->" ++ serializeNodes ns

/-- The first matching comment of a flat string-node list (the
document-order flattening of the tree search). -/
def firstSC : List SNode → Option String
  | [] => none
  | .comment s :: rest =>
      if isSubjectComment s then some s else firstSC rest
  | .text _ :: rest => firstSC rest

/-- Remove the first matching comment from a flat string-node list. -/
def dropFirstSC : List SNode → List SNode
  | [] => []
  | .comment s :: rest =>
      if isSubjectComment s then rest else .comment s :: dropFirstSC rest
  | .text s :: rest => .text s :: dropFirstSC rest

/-- The texts of all matching comments of a flat string-node list, in
document order. -/
def matchingComments (l : List SNode) : List String :=
  l.filterMap (fun sn =>
    match sn with
    | .comment s => if isSubjectComment s then some s else none
    | .text _ => none)

/-- `str(subject_comment).split(":", 1)[-1]`: everything after the
first colon; the whole string when it has no colon. -/
def afterColonChars : List Char → Option (List Char)
  | [] => none
  | c :: cs => if c = ':' then some cs else afterColonChars cs

/-- The subject value computed on line 95:
`str(subject_comment).split(":", 1)[-1].strip()`. -/
def subjectValue (s : String) : String :=
  match afterColonChars s.toList with
  | some rest => ⟨trimChars rest⟩
  | none => ⟨trimChars s.toList⟩

/-- The structured email assembled by `send` (emailer.py lines 85-101). -/
structure ComposedMessage where
  sender : String
  recipients : List String
  subject : String
  textPart : String
  htmlPart : String
deriving DecidableEq, Repr

/-- The composition core of `send` (emailer.py lines 88-101), taking
the converted HTML string `html_body` and its parse `doc`: find the
first subject comment; if found take the subject from it and extract
the node; the plain-text part joins all remaining string nodes; the
HTML part is the original `html_body` string (line 101 reuses it; the
document is not re-serialized). -/
def composeMessage (sender : String) (recipients : List String)
    (html_body : String) (doc : List Node) : ComposedMessage :=
  match findSCs doc with
  | some c =>
      { sender := sender, recipients := recipients
        subject := subjectValue c
        textPart := String.join ((nodesStrings (extractSCs doc)).map snodeStr)
        htmlPart := html_body }
  | none =>
      { sender := sender, recipients := recipients
        subject := ""
        textPart := String.join ((nodesStrings doc).map snodeStr)
        htmlPart := html_body }

/-- A jinja2 rendering failure (undefined reference or template
syntax error). -/
structure TemplateError where
  msg : String
deriving DecidableEq, Repr

/-- An smtplib failure (authentication or send failure). -/
structure TransportError where
  msg : String
deriving DecidableEq, Repr

/-- The error that aborts the batch loop, surfaced to the caller. -/
inductive BatchError where
  | template (e : TemplateError)
  | transport (e : TransportError)
  | missingRecipient
deriving DecidableEq, Repr

/-- `send` up to (but not including) `server.send_message` (emailer.py
lines 76-101): convert the rendered body to HTML (`toHtml` models
`pycmarkgfm.gfm_to_html`), parse it (`htmlParse` models
`BeautifulSoup`), and compose the message. -/
def send (toHtml : String → String) (htmlParse : String → List Node)
    (sender : String) (recipients : List String) (body : String) : ComposedMessage :=
  composeMessage sender recipients (toHtml body) (htmlParse (toHtml body))

/-- One iteration of the batch loop (emailer.py lines 71-73 together
with the transmission in `send`): render the body (a jinja2 failure
aborts), look up the recipients (`row["EmailAddress"]`, a `KeyError`
aborts), compose, and transmit (an smtplib failure aborts). -/
def processRow (toHtml : String → String) (htmlParse : String → List Node)
    (render : Mapping → Except TemplateError String)
    (transmit : ComposedMessage → Except TransportError Unit)
    (sender : String) (row : Mapping) : Except BatchError ComposedMessage :=
  match render row with
  | .error e => .error (.template e)
  | .ok body =>
      match dget? row "EmailAddress" with
      | none => .error .missingRecipient
      | some recipients =>
          let msg := send toHtml htmlParse sender recipients body
          match transmit msg with
          | .error e => .error (.transport e)
          | .ok _ => .ok msg

/-- The batch loop of `send_batch` (emailer.py lines 71-73): process
the mappings in order; the result is the list of messages transmitted
so far together with the error that stopped the loop, if any —
modelling the exception propagating out of `send_batch`. -/
def send_batchAux (toHtml : String → String) (htmlParse : String → List Node)
    (render : Mapping → Except TemplateError String)
    (transmit : ComposedMessage → Except TransportError Unit)
    (sender : String) :
    List Mapping → List ComposedMessage → List ComposedMessage × Option BatchError
  | [], sent => (sent, none)
  | row :: rest, sent =>
      match processRow toHtml htmlParse render transmit sender row with
      | .error e => (sent, some e)
      | .ok msg =>
          send_batchAux toHtml htmlParse render transmit sender rest (sent ++ [msg])

/-- `send_batch` (emailer.py lines 49-73): default the sender to the
authenticated username, then run the loop over the consolidated
mappings with an empty transmission trace. -/
def send_batch (toHtml : String → String) (htmlParse : String → List Node)
    (render : Mapping → Except TemplateError String)
    (transmit : ComposedMessage → Except TransportError Unit)
    (username : String) (sender : Option String) (data : List Mapping) :
    List ComposedMessage × Option BatchError :=
  send_batchAux toHtml htmlParse render transmit (sender.getD username) data []


/-! ### Dictionary lemmas -/

theorem dget?_isSome_of_mem {r : Row} {k : String} (h : k ∈ r.map Prod.fst) :
    (dget? r k).isSome := by
  induction r with
  | nil => simp at h
  | cons kv rest ih =>
      rw [List.map_cons, List.mem_cons] at h
      by_cases hk : kv.1 = k
      · simp [dget?, hk]
      · rcases h with h | h
        · exact absurd h.symm hk
        · simpa [dget?, hk] using ih h

theorem dget?_eq_none_of_not_mem {r : Row} {k : String} (h : k ∉ r.map Prod.fst) :
    dget? r k = none := by
  induction r with
  | nil => rfl
  | cons kv rest ih =>
      rw [List.map_cons, List.mem_cons, not_or] at h
      simpa [dget?, h.1, Ne.symm h.1] using ih h.2

theorem dget?_map_of_mem {α : Type} {ks : List String} {k : String}
    (F : String → α) (h : k ∈ ks) :
    dget? (ks.map (fun c => (c, F c))) k = some (F k) := by
  induction ks with
  | nil => simp at h
  | cons c cs ih =>
      rw [List.mem_cons] at h
      by_cases hc : c = k
      · subst hc; simp [dget?]
      · rcases h with h | h
        · exact absurd h.symm hc
        · simpa [dget?, hc] using ih h

theorem dget?_map_inv {α : Type} {ks : List String} {k : String} {v : α}
    (F : String → α) (h : dget? (ks.map (fun c => (c, F c))) k = some v) :
    k ∈ ks ∧ v = F k := by
  induction ks with
  | nil => simp [dget?] at h
  | cons c cs ih =>
      by_cases hc : c = k
      · subst hc
        simp [dget?] at h
        exact ⟨List.mem_cons_self _ _, h.symm⟩
      · simp only [List.map_cons, dget?, if_neg hc] at h
        rcases ih h with ⟨h1, h2⟩
        exact ⟨List.mem_cons_of_mem _ h1, h2⟩

theorem dget?_ddel_self {α : Type} (d : List (String × α)) (key : String) :
    dget? (ddel d key) key = none := by
  induction d with
  | nil => rfl
  | cons kv rest ih =>
      by_cases hk : kv.1 = key
      · simpa [ddel, List.filter_cons, hk] using ih
      · simpa [ddel, List.filter_cons, hk, dget?] using ih

theorem dget?_ddel_of_ne {α : Type} (d : List (String × α)) {key c : String}
    (h : key ≠ c) : dget? (ddel d c) key = dget? d key := by
  induction d with
  | nil => rfl
  | cons kv rest ih =>
      by_cases hk : kv.1 = c
      · have h1 : ddel (kv :: rest) c = ddel rest c := by
          simp [ddel, List.filter_cons, hk]
        have h2 : kv.1 ≠ key := by rw [hk]; exact fun hh => h hh.symm
        rw [h1, ih]
        simp [dget?, h2]
      · have h1 : ddel (kv :: rest) c = kv :: ddel rest c := by
          simp [ddel, List.filter_cons, hk]
        rw [h1]
        by_cases hk2 : kv.1 = key <;> simp [dget?, hk2, ih]

theorem dappend_of_not_mem {α : Type} {d : List (String × List α)} {key : String}
    (x : α) (h : key ∉ d.map Prod.fst) :
    dappend d key x = d ++ [(key, [x])] := by
  induction d with
  | nil => rfl
  | cons kv rest ih =>
      rw [List.map_cons, List.mem_cons, not_or] at h
      simp [dappend, Ne.symm h.1, ih h.2]

theorem dappend_map_of_mem {α : Type} {ks : List String} {key : String}
    (F : String → List α) (x : α) (hnd : ks.Nodup) (h : key ∈ ks) :
    dappend (ks.map (fun c => (c, F c))) key x =
      ks.map (fun c => (c, if c = key then F c ++ [x] else F c)) := by
  induction ks with
  | nil => simp at h
  | cons c cs ih =>
      rcases List.nodup_cons.mp hnd with ⟨hc, hnd2⟩
      rw [List.mem_cons] at h
      by_cases hck : c = key
      · subst hck
        have hmap : cs.map (fun c2 => (c2, F c2)) =
            cs.map (fun c2 => (c2, if c2 = c then F c2 ++ [x] else F c2)) := by
          apply List.map_congr_left
          intro c2 hc2
          have hne : c2 ≠ c := fun hcc => hc (hcc ▸ hc2)
          simp [hne]
        simp [dappend, hmap]
      · rcases h with h | h
        · exact absurd h.symm hck
        · simp [dappend, hck, ih hnd2 h]

/-! ### Consolidation lemmas -/

theorem colOf_cons (r : Row) (grp : List Row) (k : String) :
    colOf (r :: grp) k = (dget? r k).toList ++ colOf grp k := by
  cases h : dget? r k <;> simp [colOf, List.filterMap_cons, h]

theorem dget?_of_mem_nodup {r : Row} (hnd : (r.map Prod.fst).Nodup)
    {kv : String × String} (h : kv ∈ r) : dget? r kv.1 = some kv.2 := by
  induction r with
  | nil => simp at h
  | cons a rest ih =>
      rw [List.map_cons] at hnd
      rcases List.nodup_cons.mp hnd with ⟨ha, hnd2⟩
      rcases List.mem_cons.mp h with h | h
      · subst h; simp [dget?]
      · have hne : a.1 ≠ kv.1 := fun he => ha (he ▸ List.mem_map_of_mem Prod.fst h)
        simp [dget?, hne, ih hnd2 h]

theorem rowFold_cons_skip {a : String × List String} {m : Mapping} {r : Row}
    (h : a.1 ∉ r.map Prod.fst) :
    r.foldl (fun m2 kv => dappend m2 kv.1 kv.2) (a :: m) =
      a :: r.foldl (fun m2 kv => dappend m2 kv.1 kv.2) m := by
  induction r generalizing m with
  | nil => rfl
  | cons kv rest ih =>
      rw [List.map_cons, List.mem_cons, not_or] at h
      simp only [List.foldl_cons]
      have hda : dappend (a :: m) kv.1 kv.2 = a :: dappend m kv.1 kv.2 := by
        simp [dappend, h.1]
      rw [hda, ih h.2]

theorem rowFold_eq {r : Row} {m : Mapping} (hk : m.map Prod.fst = r.map Prod.fst)
    (hnd : (r.map Prod.fst).Nodup) :
    r.foldl (fun m2 kv => dappend m2 kv.1 kv.2) m =
      m.map (fun p => (p.1, p.2 ++ (dget? r p.1).toList)) := by
  induction r generalizing m with
  | nil =>
      have hm : m = [] := by
        cases m with
        | nil => rfl
        | cons p m2 => simp at hk
      subst hm; rfl
  | cons kv rest ih =>
      cases m with
      | nil => simp at hk
      | cons p m2 =>
          simp only [List.map_cons, List.cons.injEq] at hk
          obtain ⟨hp, hm⟩ := hk
          rw [List.map_cons] at hnd
          rcases List.nodup_cons.mp hnd with ⟨hknotin, hnd2⟩
          simp only [List.foldl_cons]
          have hda : dappend (p :: m2) kv.1 kv.2 = (p.1, p.2 ++ [kv.2]) :: m2 := by
            simp [dappend, hp]
          have hskip : (p.1, p.2 ++ [kv.2]).1 ∉ rest.map Prod.fst := by
            simpa [hp] using hknotin
          rw [hda, rowFold_cons_skip hskip, ih hm hnd2, List.map_cons]
          have hhead : dget? (kv :: rest) p.1 = some kv.2 := by
            simp [dget?, hp]
          have htail : ∀ q ∈ m2, ((q : String × List String).1,
              q.2 ++ (dget? rest q.1).toList) = (q.1, q.2 ++ (dget? (kv :: rest) q.1).toList) := by
            intro q hq
            have hq1 : q.1 ∈ rest.map Prod.fst := hm ▸ List.mem_map_of_mem Prod.fst hq
            have hne : kv.1 ≠ q.1 := fun he => hknotin (he ▸ hq1)
            simp [dget?, hne]
          rw [List.map_congr_left htail]
          simp [hhead]

theorem rowFold_nil_eq {r : Row} (hnd : (r.map Prod.fst).Nodup) :
    r.foldl (fun m2 kv => dappend m2 kv.1 kv.2) [] =
      r.map (fun kv => (kv.1, [kv.2])) := by
  induction r with
  | nil => rfl
  | cons kv rest ih =>
      rw [List.map_cons] at hnd
      rcases List.nodup_cons.mp hnd with ⟨hknotin, hnd2⟩
      simp only [List.foldl_cons]
      have h0 : dappend ([] : Mapping) kv.1 kv.2 = [(kv.1, [kv.2])] := rfl
      rw [h0, rowFold_cons_skip (by simpa using hknotin), ih hnd2, List.map_cons]

theorem groupFold_eq {grp : List Row} {m : Mapping}
    (hrows : ∀ r ∈ grp, r.map Prod.fst = m.map Prod.fst)
    (hnd : (m.map Prod.fst).Nodup) :
    grp.foldl (fun m1 r => r.foldl (fun m2 kv => dappend m2 kv.1 kv.2) m1) m =
      m.map (fun p => (p.1, p.2 ++ colOf grp p.1)) := by
  induction grp generalizing m with
  | nil =>
      simp only [List.foldl_nil, colOf, List.filterMap_nil, List.append_nil]
      have hid : (fun (p : String × List String) => (p.1, p.2)) = id := funext fun p => rfl
      rw [hid, List.map_id]
  | cons r grp2 ih =>
      simp only [List.foldl_cons]
      have hr : m.map Prod.fst = r.map Prod.fst := (hrows r (List.mem_cons_self _ _)).symm
      rw [rowFold_eq hr (hr ▸ hnd)]
      have hfst : (m.map (fun p => (p.1, p.2 ++ (dget? r p.1).toList))).map Prod.fst =
          m.map Prod.fst := by
        simp [List.map_map, Function.comp]
      rw [ih (fun r2 hr2 => (hfst ▸ hrows r2 (List.mem_cons_of_mem _ hr2) :
            r2.map Prod.fst = _)) (hfst ▸ hnd), List.map_map]
      apply List.map_congr_left
      intro p _
      simp [Function.comp, colOf_cons, List.append_assoc]

theorem consolidateGroup_eq {header : List String} {grp : List Row}
    (hnd : header.Nodup) (hrows : ∀ r ∈ grp, r.map Prod.fst = header)
    (hne : grp ≠ []) :
    consolidateGroup grp = header.map (fun c => (c, colOf grp c)) := by
  cases grp with
  | nil => exact absurd rfl hne
  | cons r grp2 =>
      have hr : r.map Prod.fst = header := hrows r (List.mem_cons_self _ _)
      unfold consolidateGroup
      simp only [List.foldl_cons]
      rw [rowFold_nil_eq (hr.symm ▸ hnd)]
      have hfst : (r.map (fun kv => (kv.1, [kv.2]))).map Prod.fst = header := by
        rw [← hr]; simp [List.map_map, Function.comp]
      rw [groupFold_eq (fun r2 hr2 => (hfst ▸ hrows r2 (List.mem_cons_of_mem _ hr2) :
            r2.map Prod.fst = _)) (hfst ▸ hnd), List.map_map]
      rw [← hr]
      have : ∀ kv ∈ r, ((fun p => (p.1, p.2 ++ colOf grp2 p.1)) ∘
            fun kv => (kv.1, [kv.2])) kv =
          ((fun c => (c, colOf (r :: grp2) c)) ∘ Prod.fst) kv := by
        intro kv hkv
        have hget : dget? r kv.1 = some kv.2 := dget?_of_mem_nodup (hr.symm ▸ hnd) hkv
        simp [Function.comp, colOf_cons, hget]
      rw [List.map_map, List.map_congr_left this]

/-! ### First-seen grouping lemmas -/

theorem mem_firstSeen {a : String} : ∀ {l : List String}, a ∈ firstSeen l ↔ a ∈ l := by
  intro l
  induction l using firstSeen.induct with
  | case1 => simp [firstSeen]
  | case2 x xs ih =>
      rw [firstSeen]
      by_cases hax : a = x
      · simp [hax]
      · simp only [List.mem_cons, ih, List.mem_filter, hax, false_or]
        constructor
        · exact fun h => h.1
        · exact fun h => ⟨h, by simp [hax]⟩

theorem firstSeen_nodup : ∀ (l : List String), (firstSeen l).Nodup := by
  intro l
  induction l using firstSeen.induct with
  | case1 => simp [firstSeen]
  | case2 x xs ih =>
      rw [firstSeen, List.nodup_cons]
      refine ⟨fun hx => ?_, ih⟩
      have := mem_firstSeen.mp hx
      simp at this

theorem firstSeen_append_singleton (a : String) :
    ∀ (l : List String), firstSeen (l ++ [a]) =
      if a ∈ l then firstSeen l else firstSeen l ++ [a] := by
  intro l
  induction l using firstSeen.induct with
  | case1 => simp [firstSeen]
  | case2 x xs ih =>
      rw [List.cons_append, firstSeen]
      by_cases hax : a = x
      · subst hax
        have hf : (xs ++ [a]).filter (fun y => y != a) = xs.filter (fun y => y != a) := by
          simp [List.filter_append]
        rw [hf]
        simp [firstSeen]
      · have hf : (xs ++ [a]).filter (fun y => y != x) =
            xs.filter (fun y => y != x) ++ [a] := by
          simp [List.filter_append, hax]
        rw [hf, ih]
        have hmem : a ∈ xs.filter (fun y => y != x) ↔ a ∈ xs := by
          simp [List.mem_filter, hax]
        by_cases hx : a ∈ xs
        · rw [if_pos (hmem.mpr hx)]
          simp [firstSeen, List.mem_cons, hax, hx]
        · rw [if_neg (fun hc => hx (hmem.mp hc))]
          simp [firstSeen, List.mem_cons, hax, hx]

/-- The grouping-column values of the rows, in row order (defined, for
the specification side, independently of the grouping loop). -/
def keyList (gb : String) (rows : List Row) : List String :=
  rows.filterMap (fun r => dget? r gb)

/-- The groups as the specification describes them: one per distinct
grouping value in first-seen order, each holding its member rows in
row order. -/
def groupsFor (gb : String) (rows : List Row) : List (String × List Row) :=
  (firstSeen (keyList gb rows)).map (fun k =>
    (k, rows.filter (fun r => dget? r gb == some k)))

theorem filter_key_eq_nil {gb key : String} {rows : List Row}
    (h : key ∉ keyList gb rows) :
    rows.filter (fun r => dget? r gb == some key) = [] := by
  rw [List.filter_eq_nil_iff]
  intro r hr hp
  exact h (List.mem_filterMap.mpr ⟨r, hr, by simpa using hp⟩)

theorem dappend_groupsFor {gb key : String} {rows : List Row} {r : Row}
    (h : dget? r gb = some key) :
    dappend (groupsFor gb rows) key r = groupsFor gb (rows ++ [r]) := by
  have hkeys : keyList gb (rows ++ [r]) = keyList gb rows ++ [key] := by
    simp [keyList, List.filterMap_append, h]
  by_cases hmem : key ∈ keyList gb rows
  · have hfs : firstSeen (keyList gb (rows ++ [r])) = firstSeen (keyList gb rows) := by
      rw [hkeys, firstSeen_append_singleton, if_pos hmem]
    rw [groupsFor, groupsFor, hfs,
      dappend_map_of_mem _ _ (firstSeen_nodup _) (mem_firstSeen.mpr hmem)]
    apply List.map_congr_left
    intro k _
    by_cases hkk : k = key
    · subst hkk
      simp only [if_pos rfl, Prod.mk.injEq, true_and]
      rw [List.filter_append]
      simp [h]
    · simp only [if_neg hkk, Prod.mk.injEq, true_and]
      rw [List.filter_append]
      have hfalse : (dget? r gb == some k) = false := by
        simp [h]
        exact fun he => hkk he.symm
      simp [hfalse]
  · have hfs : firstSeen (keyList gb (rows ++ [r])) =
        firstSeen (keyList gb rows) ++ [key] := by
      rw [hkeys, firstSeen_append_singleton, if_neg hmem]
    have hnot : key ∉ (groupsFor gb rows).map Prod.fst := by
      intro hk
      rcases List.mem_map.mp hk with ⟨g, hg, hfst⟩
      rcases List.mem_map.mp hg with ⟨k, hk2, rfl⟩
      exact hmem (mem_firstSeen.mp (hfst ▸ hk2))
    rw [dappend_of_not_mem _ hnot, groupsFor, groupsFor, hfs, List.map_append]
    congr 1
    · apply List.map_congr_left
      intro k hk
      have hkk : key ≠ k := fun he => hmem (he ▸ mem_firstSeen.mp hk)
      simp only [Prod.mk.injEq, true_and]
      rw [List.filter_append]
      have hfalse : (dget? r gb == some k) = false := by
        simp [h]
        exact fun he => hkk he
      simp [hfalse]
    · rw [List.map_singleton]
      simp only [Prod.mk.injEq, true_and, List.filter_append]
      rw [filter_key_eq_nil hmem]
      simp [h]

theorem buildGroupsAux_ok {gb : String} {rs : List Row}
    (h : ∀ r ∈ rs, (dget? r gb).isSome) :
    ∀ p, buildGroupsAux gb rs (groupsFor gb p) = .ok (groupsFor gb (p ++ rs)) := by
  induction rs with
  | nil => intro p; simp [buildGroupsAux]
  | cons r rs2 ih =>
      intro p
      obtain ⟨key, hkey⟩ := Option.isSome_iff_exists.mp (h r (List.mem_cons_self _ _))
      rw [buildGroupsAux, hkey]
      change buildGroupsAux gb rs2 (dappend (groupsFor gb p) key r) = _
      rw [dappend_groupsFor hkey]
      have := ih (fun r2 h2 => h r2 (List.mem_cons_of_mem _ h2)) (p ++ [r])
      simpa [List.append_assoc] using this

theorem buildGroups_ok {gb : String} {rows : List Row}
    (h : ∀ r ∈ rows, (dget? r gb).isSome) :
    buildGroupsAux gb rows [] = .ok (groupsFor gb rows) := by
  have h0 : groupsFor gb ([] : List Row) = [] := by
    simp [groupsFor, keyList, firstSeen]
  have := buildGroupsAux_ok h []
  rw [h0] at this
  simpa using this

theorem groupsFor_mem {gb : String} {rows : List Row} {g : String × List Row}
    (h : g ∈ groupsFor gb rows) :
    g.2 = rows.filter (fun r => dget? r gb == some g.1) ∧ g.2 ≠ [] ∧
      ∀ r ∈ g.2, r ∈ rows := by
  rcases List.mem_map.mp h with ⟨k, hk, rfl⟩
  refine ⟨rfl, ?_, fun r hr => List.mem_of_mem_filter hr⟩
  rcases List.mem_filterMap.mp (mem_firstSeen.mp hk) with ⟨r, hr, hget⟩
  exact List.ne_nil_of_mem (List.mem_filter.mpr ⟨hr, by simpa using hget⟩)

/-- The expected consolidated output, written as the specification
describes it: one mapping per distinct grouping value in first-seen
order, each column collapsed to its per-group value sequence, the
`Group` entry dropped when grouping was by `Group`. -/
def consolidatedFor (header : List String) (rows : List Row) : List Mapping :=
  (firstSeen (keyList (if "Group" ∈ header then "Group" else "EmailAddress") rows)).map
    (fun k =>
      if "Group" ∈ header then
        ddel (header.map (fun c =>
          (c, colOf (rows.filter (fun r => dget? r "Group" == some k)) c))) "Group"
      else
        header.map (fun c =>
          (c, colOf (rows.filter (fun r => dget? r "EmailAddress" == some k)) c)))

theorem groupbyOf_eq {header : List String}
    (hcols : "Group" ∈ header ∨ "EmailAddress" ∈ header) :
    groupbyOf (some header) =
      (if "Group" ∈ header then "Group" else "EmailAddress") := by
  by_cases h : "Group" ∈ header
  · simp [groupbyOf, h]
  · have hne : header ≠ [] := List.ne_nil_of_mem (hcols.resolve_left h)
    simp [groupbyOf, h, hne]

/-- Workhorse: on a well-formed table (duplicate-free header, every row
carrying exactly the header's columns, at least one of the recognized
columns present) `get_data` returns exactly the consolidation the
specification describes. -/
theorem get_data_spec {header : List String} {rows : List Row}
    (hnd : header.Nodup)
    (hcols : "Group" ∈ header ∨ "EmailAddress" ∈ header)
    (hrows : ∀ r ∈ rows, r.map Prod.fst = header) :
    get_data (some header) rows = .ok (consolidatedFor header rows) := by
  by_cases hG : "Group" ∈ header
  · have hgroupby : groupbyOf (some header) = "Group" := by simp [groupbyOf, hG]
    have hsome : ∀ r ∈ rows, (dget? r "Group").isSome := fun r hr =>
      dget?_isSome_of_mem ((hrows r hr).symm ▸ hG)
    rw [get_data, hgroupby, buildGroups_ok hsome]
    have hlower : lowerStr "Group" = "group" := by decide
    simp only [Except.map, hlower, if_pos rfl, groupsFor, List.map_map,
      consolidatedFor, if_pos hG]
    congr 1
    apply List.map_congr_left
    intro k hk
    simp only [Function.comp, if_true]
    congr 1
    apply consolidateGroup_eq hnd
    · intro r hr
      exact hrows r (List.mem_of_mem_filter hr)
    · rcases List.mem_filterMap.mp (mem_firstSeen.mp hk) with ⟨r, hr, hget⟩
      exact List.ne_nil_of_mem (List.mem_filter.mpr ⟨hr, by simpa using hget⟩)
  · have hE : "EmailAddress" ∈ header := hcols.resolve_left hG
    have hne : header ≠ [] := List.ne_nil_of_mem hE
    have hgroupby : groupbyOf (some header) = "EmailAddress" := by
      simp [groupbyOf, hG, hne]
    have hsome : ∀ r ∈ rows, (dget? r "EmailAddress").isSome := fun r hr =>
      dget?_isSome_of_mem ((hrows r hr).symm ▸ hE)
    rw [get_data, hgroupby, buildGroups_ok hsome]
    have hlower : lowerStr "EmailAddress" ≠ "group" := by decide
    simp only [Except.map, hlower, if_neg hlower, groupsFor, List.map_map,
      consolidatedFor, if_neg hG]
    congr 1
    apply List.map_congr_left
    intro k hk
    simp only [Function.comp, if_false]
    apply consolidateGroup_eq hnd
    · intro r hr
      exact hrows r (List.mem_of_mem_filter hr)
    · rcases List.mem_filterMap.mp (mem_firstSeen.mp hk) with ⟨r, hr, hget⟩
      exact List.ne_nil_of_mem (List.mem_filter.mpr ⟨hr, by simpa using hget⟩)

/-! ### Document flattening lemmas -/

theorem firstSC_append_some {a : List SNode} {s : String} (b : List SNode)
    (h : firstSC a = some s) : firstSC (a ++ b) = some s := by
  induction a with
  | nil => simp [firstSC] at h
  | cons sn rest ih =>
      cases sn with
      | text t =>
          rw [firstSC] at h
          simpa [firstSC] using ih h
      | comment c =>
          by_cases hc : isSubjectComment c
          · rw [firstSC, if_pos hc] at h
            simp [firstSC, hc, h]
          · rw [firstSC, if_neg hc] at h
            simpa [firstSC, hc] using ih h

theorem firstSC_append_none {a : List SNode} (b : List SNode)
    (h : firstSC a = none) : firstSC (a ++ b) = firstSC b := by
  induction a with
  | nil => simp
  | cons sn rest ih =>
      cases sn with
      | text t =>
          rw [firstSC] at h
          simpa [firstSC] using ih h
      | comment c =>
          by_cases hc : isSubjectComment c
          · rw [firstSC, if_pos hc] at h
            exact absurd h (by simp)
          · rw [firstSC, if_neg hc] at h
            simpa [firstSC, hc] using ih h

theorem dropFirstSC_append_some {a : List SNode} (b : List SNode)
    (h : (firstSC a).isSome) : dropFirstSC (a ++ b) = dropFirstSC a ++ b := by
  induction a with
  | nil => simp [firstSC] at h
  | cons sn rest ih =>
      cases sn with
      | text t =>
          rw [firstSC] at h
          simp [dropFirstSC, ih h]
      | comment c =>
          by_cases hc : isSubjectComment c
          · simp [dropFirstSC, hc]
          · rw [firstSC, if_neg hc] at h
            simp [dropFirstSC, hc, ih h]

theorem dropFirstSC_append_none {a : List SNode} (b : List SNode)
    (h : firstSC a = none) : dropFirstSC (a ++ b) = a ++ dropFirstSC b := by
  induction a with
  | nil => simp
  | cons sn rest ih =>
      cases sn with
      | text t =>
          rw [firstSC] at h
          simp [dropFirstSC, ih h]
      | comment c =>
          by_cases hc : isSubjectComment c
          · rw [firstSC, if_pos hc] at h
            exact absurd h (by simp)
          · rw [firstSC, if_neg hc] at h
            simp [dropFirstSC, hc, ih h]

/-- The tree search `find` of emailer.py line 90 agrees with scanning
the document-order string-node list. -/
theorem findSCs_eq_firstSC : ∀ l : List Node,
    findSCs l = firstSC (nodesStrings l) := by
  intro l
  induction l using nodesStrings.induct with
  | case1 => simp [findSCs, nodesStrings, firstSC]
  | case2 t cs ns ih1 ih2 =>
      rw [findSCs, nodesStrings, ih1, ih2]
      cases h : firstSC (nodesStrings cs) with
      | some s => rw [firstSC_append_some _ h]
      | none => rw [firstSC_append_none _ h]
  | case3 s ns ih =>
      rw [findSCs, nodesStrings, firstSC, ih]
  | case4 s ns ih =>
      rw [findSCs, nodesStrings, firstSC, ih]

/-- `extract` of the found comment (emailer.py line 96) removes exactly
the first matching comment from the document-order string-node list. -/
theorem nodesStrings_extractSCs : ∀ l : List Node,
    nodesStrings (extractSCs l) = dropFirstSC (nodesStrings l) := by
  intro l
  induction l using nodesStrings.induct with
  | case1 => simp [extractSCs, nodesStrings, dropFirstSC]
  | case2 t cs ns ih1 ih2 =>
      rw [extractSCs]
      by_cases h : (findSCs cs).isSome
      · rw [if_pos h, nodesStrings, ih1, nodesStrings,
          dropFirstSC_append_some _ (findSCs_eq_firstSC cs ▸ h)]
      · rw [if_neg h, nodesStrings, ih2, nodesStrings]
        rw [findSCs_eq_firstSC cs] at h
        rw [dropFirstSC_append_none _ (Option.not_isSome_iff_eq_none.mp h)]
  | case3 s ns ih =>
      rw [extractSCs, nodesStrings, nodesStrings, ih, dropFirstSC]
  | case4 s ns ih =>
      rw [extractSCs, nodesStrings]
      by_cases h : isSubjectComment s
      · rw [if_pos h, dropFirstSC, if_pos h]
      · rw [if_neg h, nodesStrings, ih, dropFirstSC, if_neg h]

theorem firstSC_eq_head (l : List SNode) :
    firstSC l = (matchingComments l).head? := by
  induction l with
  | nil => rfl
  | cons sn rest ih =>
      cases sn with
      | text t => simpa [firstSC, matchingComments, List.filterMap_cons] using ih
      | comment c =>
          by_cases hc : isSubjectComment c <;>
            simpa [firstSC, matchingComments, List.filterMap_cons, hc] using ih

theorem matchingComments_dropFirstSC (l : List SNode) :
    matchingComments (dropFirstSC l) = (matchingComments l).tail := by
  induction l with
  | nil => rfl
  | cons sn rest ih =>
      cases sn with
      | text t => simpa [dropFirstSC, matchingComments, List.filterMap_cons] using ih
      | comment c =>
          by_cases hc : isSubjectComment c <;>
            simpa [dropFirstSC, matchingComments, List.filterMap_cons, hc] using ih

theorem comment_mem_of_mem_matchingComments {l : List SNode} {s : String}
    (h : s ∈ matchingComments l) : SNode.comment s ∈ l := by
  rcases List.mem_filterMap.mp h with ⟨sn, hsn, heq⟩
  cases sn with
  | text t => simp at heq
  | comment c =>
      by_cases hc : isSubjectComment c
      · simp [hc] at heq
        exact heq ▸ hsn
      · simp [hc] at heq


/-! ### Batch loop lemmas -/

theorem processRow_template {toHtml : String → String} {htmlParse : String → List Node}
    {render : Mapping → Except TemplateError String}
    {transmit : ComposedMessage → Except TransportError Unit}
    {sender : String} {row : Mapping} {te : TemplateError}
    (h : render row = .error te) :
    processRow toHtml htmlParse render transmit sender row = .error (.template te) := by
  simp [processRow, h]

theorem processRow_missing {toHtml : String → String} {htmlParse : String → List Node}
    {render : Mapping → Except TemplateError String}
    {transmit : ComposedMessage → Except TransportError Unit}
    {sender : String} {row : Mapping} {body : String}
    (h : render row = .ok body) (hget : dget? row "EmailAddress" = none) :
    processRow toHtml htmlParse render transmit sender row = .error .missingRecipient := by
  simp [processRow, h, hget]

theorem processRow_transport {toHtml : String → String} {htmlParse : String → List Node}
    {render : Mapping → Except TemplateError String}
    {transmit : ComposedMessage → Except TransportError Unit}
    {sender : String} {row : Mapping} {body : String} {recipients : List String}
    {e : TransportError} (h : render row = .ok body)
    (hget : dget? row "EmailAddress" = some recipients)
    (htr : transmit (send toHtml htmlParse sender recipients body) = .error e) :
    processRow toHtml htmlParse render transmit sender row = .error (.transport e) := by
  simp [processRow, h, hget, htr]

theorem send_batchAux_append (toHtml : String → String) (htmlParse : String → List Node)
    (render : Mapping → Except TemplateError String)
    (transmit : ComposedMessage → Except TransportError Unit) (sender : String)
    (xs ys : List Mapping) (sent : List ComposedMessage) :
    send_batchAux toHtml htmlParse render transmit sender (xs ++ ys) sent =
      match send_batchAux toHtml htmlParse render transmit sender xs sent with
      | (s, none) => send_batchAux toHtml htmlParse render transmit sender ys s
      | (s, some e) => (s, some e) := by
  induction xs generalizing sent with
  | nil => simp [send_batchAux]
  | cons row rest ih =>
      rw [List.cons_append, send_batchAux, send_batchAux]
      cases processRow toHtml htmlParse render transmit sender row with
      | error e => rfl
      | ok msg => exact ih _

/-- C8: a render or transport failure for one group aborts the batch at
that group: the loop returns exactly the messages already transmitted
for the earlier groups (neither rolled back nor retried), transmits
nothing for the failing group or any later group, and surfaces the
underlying error; a template failure on the first group therefore sends
zero messages. -/
theorem claim8_batch_abort (toHtml : String → String) (htmlParse : String → List Node)
    (render : Mapping → Except TemplateError String)
    (transmit : ComposedMessage → Except TransportError Unit)
    (username : String) (sender : Option String)
    (pre : List Mapping) (bad : Mapping) (post : List Mapping)
    (msgs : List ComposedMessage)
    (hpre : send_batchAux toHtml htmlParse render transmit (sender.getD username) pre [] =
      (msgs, none))
    (hbad : ∀ body, render bad = .ok body →
      ∀ recipients, dget? bad "EmailAddress" = some recipients →
        ∃ e, transmit (send toHtml htmlParse (sender.getD username) recipients body) =
          .error e) :
    ∃ err, send_batch toHtml htmlParse render transmit username sender
        (pre ++ bad :: post) = (msgs, some err) ∧
      (∀ te, render bad = .error te → err = .template te) ∧
      (∀ body, render bad = .ok body →
        ∀ recipients, dget? bad "EmailAddress" = some recipients →
          ∀ e, transmit (send toHtml htmlParse (sender.getD username) recipients body) =
            .error e → err = .transport e) := by
  have hstep : send_batch toHtml htmlParse render transmit username sender
      (pre ++ bad :: post) =
      send_batchAux toHtml htmlParse render transmit (sender.getD username)
        (bad :: post) msgs := by
    rw [send_batch, send_batchAux_append, hpre]
  have hfail : ∃ err, processRow toHtml htmlParse render transmit
      (sender.getD username) bad = .error err ∧
      (∀ te, render bad = .error te → err = .template te) ∧
      (∀ body, render bad = .ok body →
        ∀ recipients, dget? bad "EmailAddress" = some recipients →
          ∀ e, transmit (send toHtml htmlParse (sender.getD username) recipients body) =
            .error e → err = .transport e) := by
    cases hre : render bad with
    | error te =>
        refine ⟨.template te, processRow_template hre, ?_, ?_⟩
        · intro te2 hte2
          exact (Except.error.inj hte2) ▸ rfl
        · intro body hbody
          exact absurd hbody (by simp)
    | ok body =>
        cases hget : dget? bad "EmailAddress" with
        | none =>
            refine ⟨.missingRecipient, processRow_missing hre hget, ?_, ?_⟩
            · intro te2 hte2
              exact absurd hte2 (by simp)
            · intro body2 hbody2 recipients2 hrec2
              exact absurd hrec2 (by simp)
        | some recipients =>
            obtain ⟨e, he⟩ := hbad body hre recipients hget
            refine ⟨.transport e, processRow_transport hre hget he, ?_, ?_⟩
            · intro te2 hte2
              exact absurd hte2 (by simp)
            · intro body2 hbody2 recipients2 hrec2 e2 he2
              have hb2 : body2 = body := (Except.ok.inj hbody2).symm
              have hr2 : recipients2 = recipients := (Option.some.inj hrec2).symm
              rw [hb2, hr2, he] at he2
              exact (Except.error.inj he2) ▸ rfl
  obtain ⟨err, herr, h1, h2⟩ := hfail
  refine ⟨err, ?_, h1, h2⟩
  rw [hstep, send_batchAux, herr]

/-- C8 witness: a template failure on the first (and only) group sends
zero messages and surfaces the template error. -/
theorem claim8_witness :
    ∃ err, send_batch (fun s => s) (fun _ => ([] : List Node))
        (fun _ => .error (TemplateError.mk "undefined variable"))
        (fun _ => .ok ()) "user@x" none
        ([] ++ [("EmailAddress", ["a@x"])] :: []) = ([], some err) ∧
      (∀ te, (Except.error (TemplateError.mk "undefined variable") :
          Except TemplateError String) = .error te → err = .template te) ∧
      (∀ body, (Except.error (TemplateError.mk "undefined variable") :
          Except TemplateError String) = .ok body →
        ∀ recipients, dget? [("EmailAddress", ["a@x"])] "EmailAddress" = some recipients →
          ∀ e, (fun _ => (Except.ok () : Except TransportError Unit))
              (send (fun s => s) (fun _ => ([] : List Node)) "user@x" recipients body) =
            .error e → err = .transport e) := by
  exact claim8_batch_abort (fun s => s) (fun _ => ([] : List Node))
    (fun _ => .error (TemplateError.mk "undefined variable")) (fun _ => .ok ())
    "user@x" none [] [("EmailAddress", ["a@x"])] [] [] rfl
    (fun body hbody => absurd hbody (by simp))

/-- C9: a table with a header but no data rows consolidates to the
empty sequence without error, and the batch sender transmits nothing
for an empty sequence of mappings. -/
theorem claim9_empty_table :
    (∀ header : List String, get_data (some header) [] = .ok []) ∧
    (∀ (toHtml : String → String) (htmlParse : String → List Node)
        (render : Mapping → Except TemplateError String)
        (transmit : ComposedMessage → Except TransportError Unit)
        (username : String) (sender : Option String),
        send_batch toHtml htmlParse render transmit username sender [] = ([], none)) := by
  constructor
  · intro header
    rw [get_data]
    simp [buildGroupsAux, Except.map]
  · intro toHtml htmlParse render transmit username sender
    rfl

/-! ### Column-sequence lemmas -/

theorem colOf_length {c : String} : ∀ {grp : List Row},
    (∀ r ∈ grp, (dget? r c).isSome) → (colOf grp c).length = grp.length := by
  intro grp h
  induction grp with
  | nil => rfl
  | cons r rest ih =>
      obtain ⟨v, hv⟩ := Option.isSome_iff_exists.mp (h r (List.mem_cons_self _ _))
      rw [colOf_cons, hv]
      simpa using ih (fun r2 h2 => h r2 (List.mem_cons_of_mem _ h2))

theorem colOf_eq_replicate {c k : String} : ∀ {grp : List Row},
    (∀ r ∈ grp, dget? r c = some k) → colOf grp c = List.replicate grp.length k := by
  intro grp h
  induction grp with
  | nil => rfl
  | cons r rest ih =>
      rw [colOf_cons, h r (List.mem_cons_self _ _)]
      simp [List.replicate_succ,
        ih (fun r2 h2 => h r2 (List.mem_cons_of_mem _ h2))]

/-! ### Claims about the Row Consolidator -/

/-- C2 counterexample: a table with no header row (an empty file:
`reader.fieldnames` is `None` and no rows are yielded) does not fail
with a `SchemaError` — `get_data` returns the empty list. -/
theorem claim2_counterexample : get_data none [] = .ok [] := rfl

/-- C2 (amended): `get_data` fails with a `SchemaError` only when a
data row is actually processed: for a header containing neither
`Group` nor `EmailAddress` it fails on the first data row, while a
table with no header row, or with such a header but no data rows,
returns the empty sequence without error. -/
theorem claim2_amended (header : List String) (r : Row) (rest : List Row)
    (hne : header ≠ []) (hG : "Group" ∉ header) (hE : "EmailAddress" ∉ header)
    (hr : r.map Prod.fst = header) :
    get_data (some header) (r :: rest) = .error .missingColumn ∧
    get_data (some header) [] = .ok [] := by
  have hgb : groupbyOf (some header) = "EmailAddress" := by
    simp [groupbyOf, hne, hG]
  constructor
  · rw [get_data, hgb]
    have hnone : dget? r "EmailAddress" = none :=
      dget?_eq_none_of_not_mem (hr.symm ▸ hE)
    rw [buildGroupsAux, hnone]
    rfl
  · rw [get_data, hgb]
    simp [buildGroupsAux, Except.map]

/-- C2 witness: header `Name` only, one data row: the lookup of the
grouping column fails. -/
theorem claim2_witness :
    get_data (some ["Name"]) [[("Name", "Al")]] = .error .missingColumn ∧
    get_data (some ["Name"]) [] = .ok [] :=
  claim2_amended ["Name"] [("Name", "Al")] [] (by decide) (by decide) (by decide)
    (by decide)

/-- C4: for a table whose header includes `Group`, `get_data` returns
one mapping per distinct `Group` value, in the order the group values
are first encountered, and no returned mapping contains a `Group`
key. -/
theorem claim4_group_consolidation {header : List String} {rows : List Row}
    (hnd : header.Nodup) (hG : "Group" ∈ header)
    (hrows : ∀ r ∈ rows, r.map Prod.fst = header) :
    ∃ ms, get_data (some header) rows = .ok ms ∧
      ms.length = (firstSeen (keyList "Group" rows)).length ∧
      ms = (firstSeen (keyList "Group" rows)).map (fun k =>
        ddel (header.map (fun c =>
          (c, colOf (rows.filter (fun r => dget? r "Group" == some k)) c))) "Group") ∧
      ∀ m ∈ ms, dget? m "Group" = none := by
  have hcf : consolidatedFor header rows =
      (firstSeen (keyList "Group" rows)).map (fun k =>
        ddel (header.map (fun c =>
          (c, colOf (rows.filter (fun r => dget? r "Group" == some k)) c))) "Group") := by
    simp [consolidatedFor, if_pos hG]
  refine ⟨consolidatedFor header rows, get_data_spec hnd (Or.inl hG) hrows, ?_, hcf, ?_⟩
  · rw [hcf]; simp
  · intro m hm
    rw [hcf] at hm
    rcases List.mem_map.mp hm with ⟨k, hk, rfl⟩
    exact dget?_ddel_self _ _

/-- C4 witness: the end-to-end table of the specification, groups `A`
(two member rows) and `B` (one member row). -/
theorem claim4_witness :
    ∃ ms, get_data (some ["Group", "EmailAddress", "Name"])
        [[("Group", "A"), ("EmailAddress", "a1@x"), ("Name", "Al")],
         [("Group", "A"), ("EmailAddress", "a2@x"), ("Name", "Ann")],
         [("Group", "B"), ("EmailAddress", "b1@x"), ("Name", "Bob")]] = .ok ms ∧
      ms.length = (firstSeen (keyList "Group"
        [[("Group", "A"), ("EmailAddress", "a1@x"), ("Name", "Al")],
         [("Group", "A"), ("EmailAddress", "a2@x"), ("Name", "Ann")],
         [("Group", "B"), ("EmailAddress", "b1@x"), ("Name", "Bob")]])).length ∧
      ms = (firstSeen (keyList "Group"
        [[("Group", "A"), ("EmailAddress", "a1@x"), ("Name", "Al")],
         [("Group", "A"), ("EmailAddress", "a2@x"), ("Name", "Ann")],
         [("Group", "B"), ("EmailAddress", "b1@x"), ("Name", "Bob")]])).map (fun k =>
        ddel (["Group", "EmailAddress", "Name"].map (fun c =>
          (c, colOf ([[("Group", "A"), ("EmailAddress", "a1@x"), ("Name", "Al")],
            [("Group", "A"), ("EmailAddress", "a2@x"), ("Name", "Ann")],
            [("Group", "B"), ("EmailAddress", "b1@x"), ("Name", "Bob")]].filter
              (fun r => dget? r "Group" == some k)) c))) "Group") ∧
      ∀ m ∈ ms, dget? m "Group" = none :=
  claim4_group_consolidation (by decide) (by decide) (by decide)

/-- C5 counterexample: in a table without a `Group` column where the
same `EmailAddress` appears in two rows, the retained `EmailAddress`
entry is a two-element sequence, not a one-element sequence. -/
theorem claim5_counterexample :
    get_data (some ["EmailAddress", "Name"])
      [[("EmailAddress", "a@x"), ("Name", "Al")],
       [("EmailAddress", "a@x"), ("Name", "Ann")]] =
      .ok [[("EmailAddress", ["a@x", "a@x"]), ("Name", ["Al", "Ann"])]] ∧
    dget? [(("EmailAddress" : String), (["a@x", "a@x"] : List String)),
      ("Name", ["Al", "Ann"])] "EmailAddress" = some ["a@x", "a@x"] ∧
    (["a@x", "a@x"] : List String).length ≠ 1 :=
  ⟨rfl, rfl, by decide⟩

/-- C5 (amended): for a table whose header lacks `Group` but has
`EmailAddress`, `get_data` groups by `EmailAddress` and returns one
mapping per distinct `EmailAddress` value; each mapping retains its
`EmailAddress` entry, whose value is the group's address repeated once
per member row — a sequence of length ≥ 1, and of length exactly 1
only when that address occurs in a single row. -/
theorem claim5_amended {header : List String} {rows : List Row}
    (hnd : header.Nodup) (hG : "Group" ∉ header) (hE : "EmailAddress" ∈ header)
    (hrows : ∀ r ∈ rows, r.map Prod.fst = header) :
    ∃ ms, get_data (some header) rows = .ok ms ∧
      ms.length = (firstSeen (keyList "EmailAddress" rows)).length ∧
      ∀ m ∈ ms, ∃ k grp,
        grp = rows.filter (fun r => dget? r "EmailAddress" == some k) ∧ grp ≠ [] ∧
        dget? m "EmailAddress" = some (List.replicate grp.length k) := by
  have hcf : consolidatedFor header rows =
      (firstSeen (keyList "EmailAddress" rows)).map (fun k =>
        header.map (fun c =>
          (c, colOf (rows.filter (fun r => dget? r "EmailAddress" == some k)) c))) := by
    simp [consolidatedFor, if_neg hG]
  refine ⟨consolidatedFor header rows, get_data_spec hnd (Or.inr hE) hrows, ?_, ?_⟩
  · rw [hcf]; simp
  · intro m hm
    rw [hcf] at hm
    rcases List.mem_map.mp hm with ⟨k, hk, rfl⟩
    refine ⟨k, _, rfl, ?_, ?_⟩
    · rcases List.mem_filterMap.mp (mem_firstSeen.mp hk) with ⟨r, hr, hget⟩
      exact List.ne_nil_of_mem (List.mem_filter.mpr ⟨hr, by simpa using hget⟩)
    · rw [dget?_map_of_mem _ hE]
      congr 1
      apply colOf_eq_replicate
      intro r hr
      simpa using (List.mem_filter.mp hr).2

/-- C5 witness: two distinct addresses, the first appearing twice:
two mappings, with `EmailAddress` sequences of lengths 2 and 1. -/
theorem claim5_witness :
    ∃ ms, get_data (some ["EmailAddress", "Name"])
        [[("EmailAddress", "a@x"), ("Name", "Al")],
         [("EmailAddress", "a@x"), ("Name", "Ann")],
         [("EmailAddress", "b@x"), ("Name", "Bob")]] = .ok ms ∧
      ms.length = (firstSeen (keyList "EmailAddress"
        [[("EmailAddress", "a@x"), ("Name", "Al")],
         [("EmailAddress", "a@x"), ("Name", "Ann")],
         [("EmailAddress", "b@x"), ("Name", "Bob")]])).length ∧
      ∀ m ∈ ms, ∃ k grp,
        grp = [[("EmailAddress", "a@x"), ("Name", "Al")],
          [("EmailAddress", "a@x"), ("Name", "Ann")],
          [("EmailAddress", "b@x"), ("Name", "Bob")]].filter
            (fun r => dget? r "EmailAddress" == some k) ∧ grp ≠ [] ∧
        dget? m "EmailAddress" = some (List.replicate grp.length k) :=
  claim5_amended (by decide) (by decide) (by decide) (by decide)

theorem map_fst_map_keys {α : Type} (F : String → α) (header : List String) :
    (header.map (fun c => (c, F c))).map Prod.fst = header := by
  induction header with
  | nil => rfl
  | cons c cs ih => simp [ih]

theorem ddel_map_keys {α : Type} (F : String → α) (header : List String) (key : String) :
    (ddel (header.map (fun c => (c, F c))) key).map Prod.fst =
      header.filter (fun c => c != key) := by
  induction header with
  | nil => rfl
  | cons c cs ih =>
      by_cases hc : c = key <;>
        simp [ddel, List.filter_cons, hc] <;>
        simpa [ddel] using ih

/-- C7: on a well-formed table, every returned mapping carries the same
key list (the header minus a dropped `Group` column), and every entry
holds the column's values of that mapping's member rows, in member-row
order, with length equal to the member-row count (hence at least 1). -/
theorem claim7_invariants {header : List String} {rows : List Row}
    (hnd : header.Nodup) (hcols : "Group" ∈ header ∨ "EmailAddress" ∈ header)
    (hrows : ∀ r ∈ rows, r.map Prod.fst = header) :
    ∃ ms, get_data (some header) rows = .ok ms ∧
      ∀ m ∈ ms, ∃ grp, grp ≠ [] ∧ grp.Sublist rows ∧
        m.map Prod.fst =
          (if "Group" ∈ header then header.filter (fun c => c != "Group") else header) ∧
        ∀ c vs, dget? m c = some vs →
          vs = colOf grp c ∧ vs.length = grp.length := by
  refine ⟨consolidatedFor header rows, get_data_spec hnd hcols hrows, ?_⟩
  intro m hm
  rw [consolidatedFor] at hm
  rcases List.mem_map.mp hm with ⟨k, hk, rfl⟩
  by_cases hG : "Group" ∈ header
  · rw [if_pos hG] at hk ⊢
    set gb := "Group" with hgb
    set grp := rows.filter (fun r => dget? r "Group" == some k) with hgrp
    have hgrpvalid : ∀ r ∈ grp, r.map Prod.fst = header := fun r hr =>
      hrows r (List.mem_of_mem_filter hr)
    refine ⟨grp, ?_, List.filter_sublist _, ?_, ?_⟩
    · rcases List.mem_filterMap.mp (mem_firstSeen.mp hk) with ⟨r, hr, hget⟩
      exact List.ne_nil_of_mem (List.mem_filter.mpr ⟨hr, by simpa using hget⟩)
    · rw [if_pos hG]
      exact ddel_map_keys _ header gb
    · intro c vs hvs
      by_cases hc : c = "Group"
      · rw [hc, dget?_ddel_self] at hvs
        exact absurd hvs (by simp)
      · rw [dget?_ddel_of_ne _ hc] at hvs
        rcases dget?_map_inv _ hvs with ⟨hcmem, rfl⟩
        exact ⟨rfl, colOf_length (fun r hr =>
          dget?_isSome_of_mem ((hgrpvalid r hr).symm ▸ hcmem))⟩
  · rw [if_neg hG] at hk ⊢
    set grp := rows.filter (fun r => dget? r "EmailAddress" == some k) with hgrp
    have hgrpvalid : ∀ r ∈ grp, r.map Prod.fst = header := fun r hr =>
      hrows r (List.mem_of_mem_filter hr)
    refine ⟨grp, ?_, List.filter_sublist _, ?_, ?_⟩
    · rcases List.mem_filterMap.mp (mem_firstSeen.mp hk) with ⟨r, hr, hget⟩
      exact List.ne_nil_of_mem (List.mem_filter.mpr ⟨hr, by simpa using hget⟩)
    · rw [if_neg hG]
      exact map_fst_map_keys _ header
    · intro c vs hvs
      rcases dget?_map_inv _ hvs with ⟨hcmem, rfl⟩
      exact ⟨rfl, colOf_length (fun r hr =>
        dget?_isSome_of_mem ((hgrpvalid r hr).symm ▸ hcmem))⟩

/-- C7 witness: the specification's end-to-end table; both mappings
carry keys `EmailAddress, Name` with sequences of the group sizes. -/
theorem claim7_witness :
    ∃ ms, get_data (some ["Group", "EmailAddress", "Name"])
        [[("Group", "A"), ("EmailAddress", "a1@x"), ("Name", "Al")],
         [("Group", "A"), ("EmailAddress", "a2@x"), ("Name", "Ann")],
         [("Group", "B"), ("EmailAddress", "b1@x"), ("Name", "Bob")]] = .ok ms ∧
      ∀ m ∈ ms, ∃ grp, grp ≠ [] ∧
        grp.Sublist [[("Group", "A"), ("EmailAddress", "a1@x"), ("Name", "Al")],
          [("Group", "A"), ("EmailAddress", "a2@x"), ("Name", "Ann")],
          [("Group", "B"), ("EmailAddress", "b1@x"), ("Name", "Bob")]] ∧
        m.map Prod.fst = (if "Group" ∈ ["Group", "EmailAddress", "Name"] then
          ["Group", "EmailAddress", "Name"].filter (fun c => c != "Group")
          else ["Group", "EmailAddress", "Name"]) ∧
        ∀ c vs, dget? m c = some vs → vs = colOf grp c ∧ vs.length = grp.length :=
  claim7_invariants (by decide) (by decide) (by decide)

/-- C10: grouping-column selection is case-sensitive — a header with a
`group` column in any casing other than exactly `Group` (plus
`EmailAddress`) falls back to grouping by `EmailAddress`, and the
`group` column is retained as an ordinary entry of every mapping
(one value per member row) rather than being dropped. -/
theorem claim10_case_sensitive_group {header : List String} {rows : List Row}
    {g : String} (hnd : header.Nodup) (hG : "Group" ∉ header)
    (hE : "EmailAddress" ∈ header) (hg : g ∈ header) (hglow : lowerStr g = "group")
    (hrows : ∀ r ∈ rows, r.map Prod.fst = header) :
    ∃ ms, get_data (some header) rows = .ok ms ∧
      ms.length = (firstSeen (keyList "EmailAddress" rows)).length ∧
      ∀ m ∈ ms, ∃ grp, grp ≠ [] ∧ grp.Sublist rows ∧
        dget? m g = some (colOf grp g) ∧ (colOf grp g).length = grp.length := by
  have hcf : consolidatedFor header rows =
      (firstSeen (keyList "EmailAddress" rows)).map (fun k =>
        header.map (fun c =>
          (c, colOf (rows.filter (fun r => dget? r "EmailAddress" == some k)) c))) := by
    simp [consolidatedFor, if_neg hG]
  refine ⟨consolidatedFor header rows, get_data_spec hnd (Or.inr hE) hrows, ?_, ?_⟩
  · rw [hcf]; simp
  · intro m hm
    rw [hcf] at hm
    rcases List.mem_map.mp hm with ⟨k, hk, rfl⟩
    have hgrpvalid : ∀ r ∈ rows.filter (fun r => dget? r "EmailAddress" == some k),
        r.map Prod.fst = header := fun r hr => hrows r (List.mem_of_mem_filter hr)
    refine ⟨_, ?_, List.filter_sublist _, dget?_map_of_mem _ hg, colOf_length
      (fun r hr => dget?_isSome_of_mem ((hgrpvalid r hr).symm ▸ hg))⟩
    rcases List.mem_filterMap.mp (mem_firstSeen.mp hk) with ⟨r, hr, hget⟩
    exact List.ne_nil_of_mem (List.mem_filter.mpr ⟨hr, by simpa using hget⟩)

/-- C10 witness: header `group, EmailAddress` (lower-case `group`):
grouping falls back to `EmailAddress` and the `group` column survives
into the mapping. -/
theorem claim10_witness :
    ∃ ms, get_data (some ["group", "EmailAddress"])
        [[("group", "g1"), ("EmailAddress", "a@x")]] = .ok ms ∧
      ms.length = (firstSeen (keyList "EmailAddress"
        [[("group", "g1"), ("EmailAddress", "a@x")]])).length ∧
      ∀ m ∈ ms, ∃ grp, grp ≠ [] ∧
        grp.Sublist [[("group", "g1"), ("EmailAddress", "a@x")]] ∧
        dget? m "group" = some (colOf grp "group") ∧
        (colOf grp "group").length = grp.length :=
  claim10_case_sensitive_group (by decide) (by decide) (by decide) (by decide)
    (by decide) (by decide)

/-! ### Claims about the Message Composer -/

theorem composeMessage_htmlPart (sender : String) (recipients : List String)
    (html_body : String) (doc : List Node) :
    (composeMessage sender recipients html_body doc).htmlPart = html_body := by
  cases h : findSCs doc <;> simp [composeMessage, h]

/-- C3: the Subject is taken from the first comment in document order
whose trimmed text begins, case-insensitively, with `subject`: the text
after the first colon, trimmed; with no such comment the Subject is the
empty string. -/
theorem claim3_subject_extraction (sender : String) (recipients : List String)
    (html_body : String) (doc : List Node) :
    (∀ c, firstSC (nodesStrings doc) = some c →
      (composeMessage sender recipients html_body doc).subject = subjectValue c) ∧
    (firstSC (nodesStrings doc) = none →
      (composeMessage sender recipients html_body doc).subject = "") := by
  constructor
  · intro c hc
    have hf : findSCs doc = some c := by rw [findSCs_eq_firstSC, hc]
    simp [composeMessage, hf]
  · intro hc
    have hf : findSCs doc = none := by rw [findSCs_eq_firstSC, hc]
    simp [composeMessage, hf]

/-- C3 witness: comment text ` sUbJeCt : Hello ` (odd casing and
spacing) yields the subject `Hello`. -/
theorem claim3_witness :
    (composeMessage "alice@x" ["bob@x"] "<p>Hi</p><!-- sUbJeCt : Hello -->"
      [Node.elem "p" [Node.text "Hi"], Node.comment " sUbJeCt : Hello "]).subject =
      "Hello" := by
  have h := (claim3_subject_extraction "alice@x" ["bob@x"]
      "<p>Hi</p><!-- sUbJeCt : Hello -->"
      [Node.elem "p" [Node.text "Hi"], Node.comment " sUbJeCt : Hello "]).1
      " sUbJeCt : Hello "
      (by simp [nodesStrings, firstSC,
        (by decide : isSubjectComment " sUbJeCt : Hello " = true)])
  rw [h]
  decide

/-- C1 counterexample: the HTML part of the composed message is the
original converted-HTML string, in which the extracted subject comment
is still present; it differs from the comment-stripped document
serialized back to HTML. -/
theorem claim1_counterexample :
    (composeMessage "alice@x" ["bob@x"] "<!-- subject: Hello --><p>Hi</p>"
      [Node.comment " subject: Hello ", Node.elem "p" [Node.text "Hi"]]).htmlPart =
      "<!-- subject: Hello --><p>Hi</p>" ∧
    serializeNodes (extractSCs
      [Node.comment " subject: Hello ", Node.elem "p" [Node.text "Hi"]]) =
      "<p>Hi</p>" ∧
    (composeMessage "alice@x" ["bob@x"] "<!-- subject: Hello --><p>Hi</p>"
      [Node.comment " subject: Hello ", Node.elem "p" [Node.text "Hi"]]).htmlPart ≠
      serializeNodes (extractSCs
        [Node.comment " subject: Hello ", Node.elem "p" [Node.text "Hi"]]) := by
  have hex : extractSCs
      [Node.comment " subject: Hello ", Node.elem "p" [Node.text "Hi"]] =
      [Node.elem "p" [Node.text "Hi"]] := by
    simp [extractSCs, (by decide : isSubjectComment " subject: Hello " = true)]
  have hser : serializeNodes (extractSCs
      [Node.comment " subject: Hello ", Node.elem "p" [Node.text "Hi"]]) =
      "<p>Hi</p>" := by
    rw [hex]
    simp only [serializeNodes]
    decide
  refine ⟨composeMessage_htmlPart _ _ _ _, hser, ?_⟩
  rw [composeMessage_htmlPart, hser]
  decide

/-- C1 (amended): when a subject comment is found, the HTML part equals
the original converted-HTML string unchanged (the document is not
re-serialized, so the comment persists there), while the plain-text
part joins the document's string nodes with the extracted comment
removed, so the extracted comment does not appear in the plain-text
part. -/
theorem claim1_amended (sender : String) (recipients : List String)
    (html_body : String) (doc : List Node) (c : String)
    (h : firstSC (nodesStrings doc) = some c) :
    (composeMessage sender recipients html_body doc).htmlPart = html_body ∧
    (composeMessage sender recipients html_body doc).textPart =
      String.join ((dropFirstSC (nodesStrings doc)).map snodeStr) := by
  have hf : findSCs doc = some c := by rw [findSCs_eq_firstSC, h]
  refine ⟨composeMessage_htmlPart _ _ _ _, ?_⟩
  simp [composeMessage, hf, nodesStrings_extractSCs]

/-- C1 witness: concrete document with one subject comment and one
paragraph. -/
theorem claim1_witness :
    (composeMessage "alice@x" ["bob@x"] "<!-- subject: Hi --><p>Yo</p>"
      [Node.comment " subject: Hi ", Node.elem "p" [Node.text "Yo"]]).htmlPart =
      "<!-- subject: Hi --><p>Yo</p>" ∧
    (composeMessage "alice@x" ["bob@x"] "<!-- subject: Hi --><p>Yo</p>"
      [Node.comment " subject: Hi ", Node.elem "p" [Node.text "Yo"]]).textPart =
      String.join ((dropFirstSC (nodesStrings
        [Node.comment " subject: Hi ", Node.elem "p" [Node.text "Yo"]])).map snodeStr) :=
  claim1_amended _ _ _ _ " subject: Hi "
    (by simp [nodesStrings, firstSC,
      (by decide : isSubjectComment " subject: Hi " = true)])

/-- C6 counterexample: with two subject comments, the first is honored
as the Subject, but the remaining comment's text does appear in the
plain-text part (it is the entire plain-text part here), contradicting
the claim that it does not. -/
theorem claim6_counterexample :
    (composeMessage "alice@x" ["bob@x"] "<!--subject: A--><!--subject: B-->"
      [Node.comment "subject: A", Node.comment "subject: B"]).subject = "A" ∧
    (composeMessage "alice@x" ["bob@x"] "<!--subject: A--><!--subject: B-->"
      [Node.comment "subject: A", Node.comment "subject: B"]).textPart =
      "subject: B" := by
  have hf : findSCs [Node.comment "subject: A", Node.comment "subject: B"] =
      some "subject: A" := by
    simp [findSCs, (by decide : isSubjectComment "subject: A" = true)]
  have hex : extractSCs [Node.comment "subject: A", Node.comment "subject: B"] =
      [Node.comment "subject: B"] := by
    simp [extractSCs, (by decide : isSubjectComment "subject: A" = true)]
  constructor
  · simp only [composeMessage, hf]
    decide
  · simp only [composeMessage, hf, hex, nodesStrings]
    decide

/-- C6 (amended): only the first matching comment in document order is
extracted and determines the Subject; every remaining matching comment
persists in the HTML part (which is the unmodified converted HTML) and
its text also appears among the string nodes joined into the
plain-text part. -/
theorem claim6_amended (sender : String) (recipients : List String)
    (html_body : String) (doc : List Node) (c : String) (cs : List String)
    (h : matchingComments (nodesStrings doc) = c :: cs) :
    (composeMessage sender recipients html_body doc).subject = subjectValue c ∧
    (composeMessage sender recipients html_body doc).htmlPart = html_body ∧
    matchingComments (nodesStrings (extractSCs doc)) = cs ∧
    (composeMessage sender recipients html_body doc).textPart =
      String.join ((nodesStrings (extractSCs doc)).map snodeStr) ∧
    ∀ s ∈ cs, SNode.comment s ∈ nodesStrings (extractSCs doc) := by
  have hfsc : firstSC (nodesStrings doc) = some c := by
    rw [firstSC_eq_head, h]
    rfl
  have hf : findSCs doc = some c := by rw [findSCs_eq_firstSC, hfsc]
  have hmc : matchingComments (nodesStrings (extractSCs doc)) = cs := by
    rw [nodesStrings_extractSCs, matchingComments_dropFirstSC, h]
    rfl
  refine ⟨by simp [composeMessage, hf], composeMessage_htmlPart _ _ _ _, hmc,
    by simp [composeMessage, hf], ?_⟩
  intro s hs
  exact comment_mem_of_mem_matchingComments (hmc.symm ▸ hs)

/-- C6 witness: two subject comments; the second one remains a string
node of the extracted document. -/
theorem claim6_witness :
    (composeMessage "alice@x" ["bob@x"] "<!--subject: X--><!--subject: Y-->"
      [Node.comment "subject: X", Node.comment "subject: Y"]).subject =
      subjectValue "subject: X" ∧
    (composeMessage "alice@x" ["bob@x"] "<!--subject: X--><!--subject: Y-->"
      [Node.comment "subject: X", Node.comment "subject: Y"]).htmlPart =
      "<!--subject: X--><!--subject: Y-->" ∧
    matchingComments (nodesStrings (extractSCs
      [Node.comment "subject: X", Node.comment "subject: Y"])) = ["subject: Y"] ∧
    (composeMessage "alice@x" ["bob@x"] "<!--subject: X--><!--subject: Y-->"
      [Node.comment "subject: X", Node.comment "subject: Y"]).textPart =
      String.join ((nodesStrings (extractSCs
        [Node.comment "subject: X", Node.comment "subject: Y"])).map snodeStr) ∧
    ∀ s ∈ ["subject: Y"], SNode.comment s ∈ nodesStrings (extractSCs
      [Node.comment "subject: X", Node.comment "subject: Y"]) :=
  claim6_amended _ _ _ _ "subject: X" ["subject: Y"]
    (by simp [nodesStrings, matchingComments, List.filterMap_cons,
      (by decide : isSubjectComment "subject: X" = true),
      (by decide : isSubjectComment "subject: Y" = true)])
